import Mathlib

/-!
Verification of the pure logic fragments of `SRI_Compras_Scrapper_V1.py`
(class `SRIDownloader`), a Selenium-driven downloader of SRI tax documents.

Strings from the Python source are modelled as `List Char`; Python
filesystem state (the two category directories `pdf/` and `xml/`) is
modelled as explicit lists of file names threaded through the functions;
fallible code is modelled with `Option`/`Except`.  Python `str.isalnum` /
`str.isdigit` are modelled by their ASCII fragments (`Char.isAlphanum`,
`Char.isDigit`); the Python versions additionally accept some non-ASCII
letters and digits, a difference none of the verified properties are
sensitive to.
-/

namespace SRIScrapper

/-- Model of Python `str.isalnum` (ASCII fragment). -/
def pyIsAlnum (c : Char) : Bool := c.isAlphanum

/-- Model of Python whitespace as used by `str.strip()`. -/
def pyIsSpace (c : Char) : Bool :=
  c == ' ' || c == '\t' || c == '\n' || c == '\r' || c == '\x0b' || c == '\x0c'

/-- The character filter of line 91: `c.isalnum() or c in ('-', '_', ' ')`. -/
def allowedChar (c : Char) : Bool := pyIsAlnum c || c == '-' || c == '_' || c == ' '

/-- Model of Python `str.strip()`: drop leading and trailing whitespace. -/
def pyStrip (l : List Char) : List Char :=
  ((l.dropWhile pyIsSpace).reverse.dropWhile pyIsSpace).reverse

/-- Model of Python `str.lower()`. -/
def lowerStr (l : List Char) : List Char := l.map Char.toLower

/-- The decimal digit character of value `d` (for `d < 10`). -/
def digitChar (d : Nat) : Char := Char.ofNat (48 + d)

/-- Fuel-driven decimal rendering of a natural number, least significant
digit last; with fuel above `n` it agrees with Python `str(n)`. -/
def natToDigitsAux : Nat → Nat → List Char
  | 0, _ => []
  | fuel + 1, n =>
    if n < 10 then [digitChar n] else natToDigitsAux fuel (n / 10) ++ [digitChar (n % 10)]

/-- Model of Python `str(n)` for a natural number `n` (as used by the
f-strings on lines 95, 103, 122, 126). -/
def natToDigits (n : Nat) : List Char := natToDigitsAux (n + 1) n

/-- Model of Python `int(s)` for a string of decimal digits (line 218). -/
def parseDecimal (l : List Char) : Nat := l.foldl (fun a c => 10 * a + (c.toNat - 48)) 0

/-- The literal regex pattern of line 93. -/
def patList : List Char := "FacturasNumber".toList

/-- The replacement text of line 93. -/
def repList : List Char := "Facturas Number".toList

/-- Fuel-driven body of the `re.sub(r'(Facturas)(Number)', r'\1 \2', s)`
call of line 93: scan left to right, replacing each (non-overlapping)
occurrence of the literal pattern. -/
def subFNAux : Nat → List Char → List Char
  | 0, l => l
  | fuel + 1, l =>
    match l with
    | [] => []
    | c :: rest =>
      if patList.isPrefixOf (c :: rest) then
        repList ++ subFNAux fuel ((c :: rest).drop patList.length)
      else
        c :: subFNAux fuel rest

/-- Model of the label-spacing normalization of line 93. -/
def subFN (l : List Char) : List Char := subFNAux l.length l

/-- Model of the sanitization of lines 91-95: keep only allowed characters,
strip, normalize the label spacing, and fall back to the timestamp-based
placeholder `documento_<t>` when the result is empty (`t` models
`int(time.time())`). -/
def finalCleanName (factura : List Char) (t : Nat) : List Char :=
  let cleaned := subFN (pyStrip (factura.filter allowedChar))
  if cleaned = [] then "documento_".toList ++ natToDigits t else cleaned

/-- Candidate destination file name with counter `k` (lines 97 and 103):
`stem ++ ext` for `k = 0` (the original destination), and
`stem ++ "_" ++ str k ++ ext` for `k ≥ 1` (`with_stem` of line 103). -/
def candName (stem ext : List Char) (k : Nat) : List Char :=
  if k = 0 then stem ++ ext else stem ++ '_' :: (natToDigits k ++ ext)

/-- Fuel-driven model of the collision loop of lines 100-104: starting at
counter `k`, return the first candidate name that does not exist in the
directory listing `S`. -/
def loopFindName (S : List (List Char)) (stem ext : List Char) : Nat → Nat → List Char
  | 0, k => candName stem ext k
  | fuel + 1, k =>
    if candName stem ext k ∈ S then loopFindName S stem ext fuel (k + 1)
    else candName stem ext k

/-- The destination file name chosen for stem `stem` and extension `ext`
against the directory listing `S` (lines 97-104).  The fuel `S.length + 2`
suffices: among the candidates with counters `0, ..., S.length + 1` at
least one is free. -/
def destName (S : List (List Char)) (stem ext : List Char) : List Char :=
  loopFindName S stem ext (S.length + 2) 0

/-- The two file categories of the organizer (lines 81-86). -/
inductive FType
  | pdf
  | xml
deriving DecidableEq

/-- The organizer's view of the filesystem: the listings of the two
category directories `sri_files/pdf` and `sri_files/xml`. -/
structure FS where
  pdfDir : List (List Char)
  xmlDir : List (List Char)
deriving DecidableEq

/-- A file in the browser's download directory as inspected by the scan of
lines 73-76: whether it is a regular file, its age in seconds
(`now - st_mtime`), and its `Path.suffix` extension. -/
structure TempFile where
  isFile : Bool
  age : Nat
  suffix : List Char
deriving DecidableEq

/-- The scan filter of lines 73-76: regular files modified within the last
20 seconds whose lowercased extension is `.pdf` or `.xml`. -/
def recentFilter (files : List TempFile) : List TempFile :=
  files.filter fun f =>
    f.isFile && decide (f.age < 20) &&
      (lowerStr f.suffix == ".pdf".toList || lowerStr f.suffix == ".xml".toList)

/-- Category selection by extension (lines 81-88); `none` models the
`continue` branch. -/
def suffixType (f : TempFile) : Option FType :=
  if lowerStr f.suffix == ".pdf".toList then some FType.pdf
  else if lowerStr f.suffix == ".xml".toList then some FType.xml
  else none

/-- The listing of the category directory for a file type. -/
def dirOf (st : FS) : FType → List (List Char)
  | FType.pdf => st.pdfDir
  | FType.xml => st.xmlDir

/-- Replace the listing of one category directory. -/
def setDir (st : FS) : FType → List (List Char) → FS
  | FType.pdf, l => { st with pdfDir := l }
  | FType.xml, l => { st with xmlDir := l }

/-- Move one file (lines 97-108): choose a collision-free destination name
and add it to the category directory; returns the chosen name and the new
filesystem state. -/
def moveStep (st : FS) (ft : FType) (clean ext : List Char) : List Char × FS :=
  let name := destName (dirOf st ft) clean ext
  (name, setDir st ft (dirOf st ft ++ [name]))

/-- The move loop of lines 79-109 with failure injection: `failAt = some k`
models an exception raised at the `k`-th loop iteration (before its move
happens); the error escapes to the handler but all earlier filesystem
changes persist. -/
def organizeGo (fn : List Char) (t : Nat) :
    List TempFile → FS → Option Nat → Except Unit (List (FType × List Char)) × FS
  | [], st, _ => (Except.ok [], st)
  | f :: fs, st, failAt =>
    if failAt = some 0 then (Except.error (), st)
    else
      match suffixType f with
      | none => organizeGo fn t fs st (failAt.map fun n => n - 1)
      | some ft =>
        let res := moveStep st ft (finalCleanName fn t) (lowerStr f.suffix)
        match organizeGo fn t fs res.2 (failAt.map fun n => n - 1) with
        | (Except.ok rest, st2) => (Except.ok ((ft, res.1) :: rest), st2)
        | (Except.error e, st2) => (Except.error e, st2)

/-- Model of `move_downloaded_files` (lines 66-115): scan the download
directory, move each matched file, and on any exception return the empty
list (the `except` handler of lines 113-115) while keeping the filesystem
changes made so far. -/
def organize (st : FS) (files : List TempFile) (fn : List Char) (t : Nat)
    (failAt : Option Nat) : List (FType × List Char) × FS :=
  match organizeGo fn t (recentFilter files) st failAt with
  | (Except.ok moved, st2) => (moved, st2)
  | (Except.error _, st2) => ([], st2)

/-- Does a file name match the `*.crdownload` glob of line 59? -/
def isCrdownload (name : List Char) : Bool := ".crdownload".toList.isSuffixOf name

/-- Model of `wait_for_download_complete` (lines 54-64): the argument is
the sequence of download-directory snapshots seen at successive polls (its
length models the 15-second timeout window); the wait returns `true` at
the first poll showing no in-progress `.crdownload` marker, and `false`
when the window is exhausted. -/
def waitForDownloadComplete : List (List (List Char)) → Bool
  | [] => false
  | snap :: rest =>
    if (snap.filter isCrdownload).isEmpty then true else waitForDownloadComplete rest

/-- State of one download link as the driver sees it: `none` models
`NoSuchElementException`; otherwise the pair `(is_displayed, is_enabled)`. -/
def triggeredLink (link : Option (Bool × Bool)) (waitOk : Bool) : Bool :=
  match link with
  | some (displayed, enabled) => displayed && enabled && waitOk
  | none => false

/-- Environment of one row of `download_document_by_index` (lines 117-198):
the two links, the outcome of each download-marker wait, the text of the
third row cell (`none` models any lookup failure on lines 129-141), the
download-directory contents seen by the organizer, and the current time. -/
structure RowEnv where
  xmlLink : Option (Bool × Bool)
  xmlWaitOk : Bool
  pdfLink : Option (Bool × Bool)
  pdfWaitOk : Bool
  facturaCell : Option (List Char)
  tempFiles : List TempFile
  time : Nat
  orgFail : Option Nat
deriving DecidableEq

/-- The invoice name for a row (lines 126-141): the stripped cell text when
extraction succeeded and the stripped text is nonempty, else the synthetic
`documento_<index>` fallback. -/
def facturaName (env : RowEnv) (index : Nat) : List Char :=
  match env.facturaCell with
  | none => "documento_".toList ++ natToDigits index
  | some txt =>
    let s := pyStrip txt
    if s.isEmpty then "documento_".toList ++ natToDigits index else s

/-- The `downloads_successful` list of lines 145-183: the file types whose
link was present, displayed and enabled, and whose download-marker wait
returned `true`. -/
def rowSuccesses (env : RowEnv) : List FType :=
  (if triggeredLink env.xmlLink env.xmlWaitOk then [FType.xml] else []) ++
    (if triggeredLink env.pdfLink env.pdfWaitOk then [FType.pdf] else [])

/-- Does processing a row show the blocking multi-file-download prompt
(lines 185-186)?  The test is on the DOM row index, not on the position of
the row in the processing order. -/
def rowPrompt (index : Nat) : Bool := index == 0

/-- Model of `download_document_by_index` (lines 117-198): returns the
row's success flag (line 192 or 194), whether the multi-file prompt was
shown, and the resulting filesystem state. -/
def downloadDocumentByIndex (st : FS) (env : RowEnv) (index : Nat) : Bool × Bool × FS :=
  if (rowSuccesses env).isEmpty then (false, rowPrompt index, st)
  else
    let res := organize st env.tempFiles (facturaName env index) env.time env.orgFail
    (decide (0 < res.1.length), rowPrompt index, res.2)

/-- A concrete row environment: the XML link is present, displayed and
enabled and its download-marker wait succeeds; the PDF link is absent; the
invoice cell reads `F001`; the download directory holds one fresh `.pdf`
file. -/
def cexRowEnv : RowEnv :=
  ⟨some (true, true), true, none, false, some "F001".toList,
    [⟨true, 0, ".pdf".toList⟩], 0, none⟩

/-- Model of Python `s.split(':')` (line 216). -/
def splitColon : List Char → List (List Char)
  | [] => [[]]
  | c :: rest =>
    if c = ':' then [] :: splitColon rest
    else
      match splitColon rest with
      | [] => [[c]]
      | p :: ps => (c :: p) :: ps

/-- Model of Python `s.isdigit()` (ASCII fragment, line 217): nonempty and
all decimal digits. -/
def pyIsDigitStr (l : List Char) : Bool := !l.isEmpty && l.all Char.isDigit

/-- Row-index extraction from one anchor's `id` attribute (lines 213-221):
`none` for a missing attribute (the `.split` call raises and the bare
`except` skips the anchor) and for malformed identifiers (fewer than three
colon-separated segments, or a third segment that is not all digits). -/
def extractIndex : Option (List Char) → Option Nat
  | none => none
  | some s =>
    let parts := splitColon s
    if decide (3 ≤ parts.length) && pyIsDigitStr (parts.getD 2 []) then
      some (parseDecimal (parts.getD 2 []))
    else none

/-- The ordered index sequence built by `download_current_page` from the
anchors' `id` attributes, in DOM order (lines 211-221). -/
def documentIndices (ids : List (Option (List Char))) : List Nat :=
  ids.filterMap extractIndex

/-- The XML link identifier constructed for row `n` (line 122), which is
also the shape of the well-formed identifiers found in the DOM. -/
def mkXmlLinkId (n : Nat) : List Char :=
  "frmPrincipal:tablaCompRecibidos:".toList ++ natToDigits n ++ ":lnkXml".toList

/-- The disabled-state marker class of line 254. -/
def disabledToken : List Char := "ui-state-disabled".toList

/-- Model of Python substring containment (`needle in haystack`, line 254). -/
def containsSub (needle : List Char) : List Char → Bool
  | [] => needle.isEmpty
  | c :: rest => needle.isPrefixOf (c :: rest) || containsSub needle rest

/-- Fuel-driven whitespace tokenizer: the class tokens carried by a `class`
attribute value (used to state what "carries the disabled-state class
token" means; the source itself only tests substring containment). -/
def wsSplitAux : Nat → List Char → List (List Char)
  | 0, _ => []
  | fuel + 1, l =>
    match l with
    | [] => []
    | c :: rest =>
      if pyIsSpace c then wsSplitAux fuel rest
      else
        (c :: rest).takeWhile (fun d => !pyIsSpace d) ::
          wsSplitAux fuel ((c :: rest).dropWhile (fun d => !pyIsSpace d))

/-- The whitespace-separated tokens of a class attribute value. -/
def wsSplit (l : List Char) : List (List Char) := wsSplitAux l.length l

/-- Model of `go_to_next_page` (lines 246-266): the argument is the list of
`class` attribute values of the located `.ui-paginator-next` controls
(`none` models a missing attribute, turned into `""` by the `or` on line
253).  Returns the position of the clicked control, or `none` when the
loop falls through and the method reports no more pages. -/
def goToNextPage : List (Option (List Char)) → Option Nat
  | [] => none
  | b :: rest =>
    if containsSub disabledToken (b.getD []) then (goToNextPage rest).map (· + 1)
    else some 0

/-- The two kinds of blocking operator prompts of the script. -/
inductive PromptEvent
  | login
  | multiFile
deriving DecidableEq, BEq

/-- Prompt events emitted while processing one row (lines 185-186). -/
def rowPromptEvents (index : Nat) : List PromptEvent :=
  if rowPrompt index then [PromptEvent.multiFile] else []

/-- Prompt events emitted while processing one page of row indices
(lines 230-234). -/
def pagePromptEvents (rows : List Nat) : List PromptEvent :=
  (rows.map rowPromptEvents).flatten

/-- Prompt events of a whole run (lines 280-316): one login confirmation
(line 282), then the events of every processed page in order.  A page
processed again after the operator chooses retry appears again in the
list. -/
def runPromptEvents (pages : List (List Nat)) : List PromptEvent :=
  PromptEvent.login :: (pages.map pagePromptEvents).flatten

/-- Number of multi-file-download prompts in an event list. -/
def countMultiPrompts (es : List PromptEvent) : Nat :=
  (es.filter fun e => e == PromptEvent.multiFile).length

/-- Number of login prompts in an event list. -/
def countLoginPrompts (es : List PromptEvent) : Nat :=
  (es.filter fun e => e == PromptEvent.login).length

/-- How the body of `run` (the code of lines 271-324 inside the `try`)
terminates: normally, by `KeyboardInterrupt`, or by any other exception. -/
inductive RunOutcome
  | completed
  | interrupted
  | crashed
deriving DecidableEq

/-- Observable outcome of `run` (lines 268-333). -/
structure RunResult where
  summaryPrinted : Bool
  cleanupRan : Bool
  exitFailure : Bool
deriving DecidableEq

/-- Model of the `try` / `except` / `finally` structure of `run`
(lines 270-333): the summary block (lines 318-324) sits inside the `try`
after the page loop, so it runs only on normal termination; both handlers
(lines 326-329) swallow the error, so the method never ends with a
distinguished failure status; the `finally` block (lines 330-333) always
runs. -/
def runModel : RunOutcome → RunResult
  | RunOutcome.completed => ⟨true, true, false⟩
  | RunOutcome.interrupted => ⟨false, true, false⟩
  | RunOutcome.crashed => ⟨false, true, false⟩

/-! ### Decimal rendering and parsing -/

theorem digitChar_toNat {d : Nat} (h : d < 10) : (digitChar d).toNat = 48 + d := by
  interval_cases d <;> decide

theorem digitChar_allowed {d : Nat} (h : d < 10) : allowedChar (digitChar d) = true := by
  interval_cases d <;> decide

theorem digitChar_isDigit {d : Nat} (h : d < 10) : (digitChar d).isDigit = true := by
  interval_cases d <;> decide

theorem digitChar_ne_colon {d : Nat} (h : d < 10) : digitChar d ≠ ':' := by
  interval_cases d <;> decide

theorem parseDecimal_append (l : List Char) (c : Char) :
    parseDecimal (l ++ [c]) = 10 * parseDecimal l + (c.toNat - 48) := by
  simp [parseDecimal, List.foldl_append]

theorem parseDecimal_natToDigitsAux :
    ∀ fuel n, n < fuel → parseDecimal (natToDigitsAux fuel n) = n := by
  intro fuel
  induction fuel with
  | zero => intro n h; omega
  | succ fuel ih =>
    intro n h
    by_cases h10 : n < 10
    · rw [natToDigitsAux, if_pos h10]
      show 10 * 0 + ((digitChar n).toNat - 48) = n
      rw [digitChar_toNat h10]
      omega
    · have hpos : 0 < n := by omega
      have hdiv : n / 10 < n := Nat.div_lt_self hpos (by omega)
      rw [natToDigitsAux, if_neg h10, parseDecimal_append, ih (n / 10) (by omega),
        digitChar_toNat (Nat.mod_lt n (by omega))]
      have := Nat.div_add_mod n 10
      omega

theorem parseDecimal_natToDigits (n : Nat) : parseDecimal (natToDigits n) = n :=
  parseDecimal_natToDigitsAux (n + 1) n (Nat.lt_succ_self n)

theorem natToDigits_inj {m n : Nat} (h : natToDigits m = natToDigits n) : m = n := by
  have hm := parseDecimal_natToDigits m
  rw [h, parseDecimal_natToDigits] at hm
  exact hm.symm

theorem natToDigitsAux_mem :
    ∀ fuel n c, c ∈ natToDigitsAux fuel n → ∃ d, d < 10 ∧ c = digitChar d := by
  intro fuel
  induction fuel with
  | zero => intro n c h; simp [natToDigitsAux] at h
  | succ fuel ih =>
    intro n c h
    rw [natToDigitsAux] at h
    by_cases h10 : n < 10
    · rw [if_pos h10] at h
      simp at h
      exact ⟨n, h10, h⟩
    · rw [if_neg h10] at h
      rcases List.mem_append.mp h with hl | hr
      · exact ih _ _ hl
      · simp at hr
        exact ⟨n % 10, Nat.mod_lt n (by omega), hr⟩

theorem natToDigits_mem {n : Nat} {c : Char} (h : c ∈ natToDigits n) :
    ∃ d, d < 10 ∧ c = digitChar d :=
  natToDigitsAux_mem _ _ _ h

theorem natToDigits_ne_nil (n : Nat) : natToDigits n ≠ [] := by
  rw [natToDigits, natToDigitsAux]
  split <;> simp

/-! ### Collision resolution -/

theorem candName_inj {stem ext : List Char} {j k : Nat} (hj : j ≠ 0) (hk : k ≠ 0)
    (h : candName stem ext j = candName stem ext k) : j = k := by
  rw [candName, if_neg hj] at h
  rw [candName, if_neg hk] at h
  have h1 := List.append_cancel_left h
  injection h1 with _ h2
  have hlen : (natToDigits j).length = (natToDigits k).length := by
    have := congrArg List.length h2
    simp at this
    omega
  exact natToDigits_inj ( List.append_inj h2 hlen).1

theorem exists_candName_free (S : List (List Char)) (stem ext : List Char) :
    ∃ m, m ≤ S.length + 1 ∧ candName stem ext m ∉ S := by
  by_contra hcon
  push_neg at hcon
  have hinj : Set.InjOn (candName stem ext) (Finset.Icc 1 (S.length + 1)) := by
    intro a ha b hb hab
    rw [Finset.coe_Icc, Set.mem_Icc] at ha hb
    exact candName_inj (by omega) (by omega) hab
  have hsub : Finset.image (candName stem ext) (Finset.Icc 1 (S.length + 1)) ⊆ S.toFinset := by
    intro x hx
    rw [Finset.mem_image] at hx
    obtain ⟨m, hm, rfl⟩ := hx
    rw [Finset.mem_Icc] at hm
    rw [List.mem_toFinset]
    exact hcon m hm.2
  have hcard := Finset.card_le_card hsub
  rw [Finset.card_image_of_injOn hinj, Nat.card_Icc] at hcard
  have := List.toFinset_card_le S
  omega

theorem loopFindName_spec (S : List (List Char)) (stem ext : List Char) :
    ∀ fuel k, (∃ j, k ≤ j ∧ j < k + fuel ∧ candName stem ext j ∉ S) →
      ∃ m, loopFindName S stem ext fuel k = candName stem ext m ∧ k ≤ m ∧
        candName stem ext m ∉ S ∧ ∀ j, k ≤ j → j < m → candName stem ext j ∈ S := by
  intro fuel
  induction fuel with
  | zero =>
    rintro k ⟨j, hj1, hj2, -⟩
    omega
  | succ fuel ih =>
    rintro k ⟨j, hj1, hj2, hj3⟩
    rw [loopFindName]
    by_cases hmem : candName stem ext k ∈ S
    · rw [if_pos hmem]
      have hjk : j ≠ k := fun he => hj3 (he ▸ hmem)
      obtain ⟨m, hm1, hm2, hm3, hm4⟩ := ih (k + 1) ⟨j, by omega, by omega, hj3⟩
      refine ⟨m, hm1, by omega, hm3, fun j2 hj2a hj2b => ?_⟩
      rcases Nat.eq_or_lt_of_le hj2a with he | hlt
      · exact he ▸ hmem
      · exact hm4 j2 hlt hj2b
    · rw [if_neg hmem]
      exact ⟨k, rfl, Nat.le_refl k, hmem, fun j2 h1 h2 => by omega⟩

theorem destName_spec (S : List (List Char)) (stem ext : List Char) :
    ∃ m, destName S stem ext = candName stem ext m ∧ candName stem ext m ∉ S ∧
      ∀ j < m, candName stem ext j ∈ S := by
  obtain ⟨j, hj1, hj2⟩ := exists_candName_free S stem ext
  obtain ⟨m, h1, -, h3, h4⟩ :=
    loopFindName_spec S stem ext (S.length + 2) 0 ⟨j, Nat.zero_le j, by omega, hj2⟩
  exact ⟨m, h1, h3, fun j2 hj2a => h4 j2 (Nat.zero_le _) hj2a⟩

theorem destName_not_mem (S : List (List Char)) (stem ext : List Char) :
    destName S stem ext ∉ S := by
  obtain ⟨m, h1, h2, -⟩ := destName_spec S stem ext
  rw [h1]
  exact h2

/-! ### Organizer invariants -/

theorem moveStep_dirs (st : FS) (ft : FType) (clean ext : List Char) :
    st.pdfDir <+: (moveStep st ft clean ext).2.pdfDir ∧
    st.xmlDir <+: (moveStep st ft clean ext).2.xmlDir ∧
    (st.pdfDir.Nodup → (moveStep st ft clean ext).2.pdfDir.Nodup) ∧
    (st.xmlDir.Nodup → (moveStep st ft clean ext).2.xmlDir.Nodup) := by
  cases ft with
  | pdf =>
    simp only [moveStep, setDir, dirOf]
    refine ⟨ List.prefix_append _ _, List.prefix_rfl, fun hn => ?_, id⟩
    rw [List.nodup_append]
    exact ⟨hn, List.nodup_singleton _,
      List.disjoint_singleton.mpr (destName_not_mem _ _ _)⟩
  | xml =>
    simp only [moveStep, setDir, dirOf]
    refine ⟨ List.prefix_rfl, List.prefix_append _ _, id, fun hn => ?_⟩
    rw [List.nodup_append]
    exact ⟨hn, List.nodup_singleton _,
      List.disjoint_singleton.mpr (destName_not_mem _ _ _)⟩

theorem organizeGo_dirs (fn : List Char) (t : Nat) :
    ∀ (fs : List TempFile) (st : FS) (failAt : Option Nat),
      st.pdfDir <+: (organizeGo fn t fs st failAt).2.pdfDir ∧
      st.xmlDir <+: (organizeGo fn t fs st failAt).2.xmlDir ∧
      (st.pdfDir.Nodup → (organizeGo fn t fs st failAt).2.pdfDir.Nodup) ∧
      (st.xmlDir.Nodup → (organizeGo fn t fs st failAt).2.xmlDir.Nodup) := by
  intro fs
  induction fs with
  | nil =>
    intro st failAt
    simp [organizeGo]
  | cons f fs ih =>
    intro st failAt
    by_cases h0 : failAt = some 0
    · simp [organizeGo, h0]
    · cases hft : suffixType f with
      | none =>
        simpa [organizeGo, h0, hft] using ih st (failAt.map fun n => n - 1)
      | some ft =>
        obtain ⟨hm1, hm2, hm3, hm4⟩ :=
          moveStep_dirs st ft (finalCleanName fn t) (lowerStr f.suffix)
        obtain ⟨hi1, hi2, hi3, hi4⟩ :=
          ih (moveStep st ft (finalCleanName fn t) (lowerStr f.suffix)).2
            (failAt.map fun n => n - 1)
        rcases hres : organizeGo fn t fs
            (moveStep st ft (finalCleanName fn t) (lowerStr f.suffix)).2
            (failAt.map fun n => n - 1) with ⟨r, st2⟩
        rw [hres] at hi1 hi2 hi3 hi4
        cases r <;>
          simpa [organizeGo, h0, hft, hres] using
            ⟨hm1.trans hi1, hm2.trans hi2, fun hn => hi3 (hm3 hn), fun hn => hi4 (hm4 hn)⟩

theorem organize_snd (st : FS) (files : List TempFile) (fn : List Char) (t : Nat)
    (failAt : Option Nat) :
    (organize st files fn t failAt).2 = (organizeGo fn t (recentFilter files) st failAt).2 := by
  rw [organize]
  rcases h : organizeGo fn t (recentFilter files) st failAt with ⟨r, st2⟩
  cases r <;> simp

theorem organize_dirs (st : FS) (files : List TempFile) (fn : List Char) (t : Nat)
    (failAt : Option Nat) :
    st.pdfDir <+: (organize st files fn t failAt).2.pdfDir ∧
    st.xmlDir <+: (organize st files fn t failAt).2.xmlDir ∧
    (st.pdfDir.Nodup → (organize st files fn t failAt).2.pdfDir.Nodup) ∧
    (st.xmlDir.Nodup → (organize st files fn t failAt).2.xmlDir.Nodup) := by
  rw [organize_snd]
  exact organizeGo_dirs fn t (recentFilter files) st failAt

theorem organizeGo_dirOf (fn : List Char) (t : Nat) (fs : List TempFile) (st : FS)
    (failAt : Option Nat) (ft : FType) :
    dirOf st ft <+: dirOf (organizeGo fn t fs st failAt).2 ft := by
  obtain ⟨h1, h2, -, -⟩ := organizeGo_dirs fn t fs st failAt
  cases ft
  · exact h1
  · exact h2

theorem organizeGo_mem (fn : List Char) (t : Nat) :
    ∀ (fs : List TempFile) (st : FS) (failAt : Option Nat) l st2,
      organizeGo fn t fs st failAt = (Except.ok l, st2) →
      ∀ p ∈ l, p.2 ∈ dirOf st2 p.1 := by
  intro fs
  induction fs with
  | nil =>
    intro st failAt l st2 heq p hp
    simp [organizeGo] at heq
    rw [heq.1] at hp
    simp at hp
  | cons f fs ih =>
    intro st failAt l st2 heq p hp
    by_cases h0 : failAt = some 0
    · simp [organizeGo, h0] at heq
    · cases hft : suffixType f with
      | none =>
        rw [organizeGo] at heq
        rw [if_neg h0, hft] at heq
        exact ih st _ l st2 heq p hp
      | some ft =>
        rcases hres : organizeGo fn t fs
            (moveStep st ft (finalCleanName fn t) (lowerStr f.suffix)).2
            (failAt.map fun n => n - 1) with ⟨r, st2a⟩
        rw [organizeGo] at heq
        simp only [if_neg h0, hft, hres] at heq
        cases r with
        | error e => simp at heq
        | ok rest =>
          simp at heq
          obtain ⟨hl, hst⟩ := heq
          rw [← hl] at hp
          rcases List.mem_cons.mp hp with hp1 | hp2
          · subst hp1
            have hmem : (moveStep st ft (finalCleanName fn t) (lowerStr f.suffix)).1 ∈
                dirOf (moveStep st ft (finalCleanName fn t) (lowerStr f.suffix)).2 ft := by
              cases ft <;> simp [moveStep, setDir, dirOf]
            have hsub := List.IsPrefix.subset
              (organizeGo_dirOf fn t fs
                (moveStep st ft (finalCleanName fn t) (lowerStr f.suffix)).2
                (failAt.map fun n => n - 1) ft)
            rw [hres] at hsub
            rw [← hst]
            exact hsub hmem
          · rw [← hst]
            exact ih _ _ rest st2a hres p hp2

theorem organizeGo_none_ok (fn : List Char) (t : Nat) :
    ∀ (fs : List TempFile) (st : FS),
      ∃ l, (organizeGo fn t fs st none).1 = Except.ok l ∧
        l.length = (fs.filter fun f => (suffixType f).isSome).length := by
  intro fs
  induction fs with
  | nil =>
    intro st
    exact ⟨[], by simp [organizeGo], by simp⟩
  | cons f fs ih =>
    intro st
    cases hft : suffixType f with
    | none =>
      obtain ⟨l, hl1, hl2⟩ := ih st
      refine ⟨l, ?_, ?_⟩
      · rw [organizeGo]
        simpa [hft] using hl1
      · simpa [List.filter_cons, hft] using hl2
    | some ft =>
      obtain ⟨l, hl1, hl2⟩ := ih (moveStep st ft (finalCleanName fn t) (lowerStr f.suffix)).2
      rcases hres : organizeGo fn t fs
          (moveStep st ft (finalCleanName fn t) (lowerStr f.suffix)).2 none with ⟨r, st2⟩
      rw [hres] at hl1
      simp at hl1
      subst hl1
      refine ⟨(ft, (moveStep st ft (finalCleanName fn t) (lowerStr f.suffix)).1) :: l, ?_, ?_⟩
      · rw [organizeGo]
        simp [hft, hres]
      · simpa [List.filter_cons, hft] using congrArg Nat.succ hl2

theorem organizeGo_failAt (fn : List Char) (t : Nat) :
    ∀ (fs : List TempFile) (st : FS) (k : Nat), k < fs.length →
      organizeGo fn t fs st (some k) =
        (Except.error (), (organizeGo fn t (fs.take k) st none).2) := by
  intro fs
  induction fs with
  | nil =>
    intro st k hk
    simp at hk
  | cons f fs ih =>
    intro st k hk
    cases k with
    | zero => simp [organizeGo]
    | succ k =>
      have h0 : ¬ (some (k + 1) : Option Nat) = some 0 := by simp
      have hk2 : k < fs.length := by
        have hx : k + 1 < fs.length + 1 := by simpa using hk
        omega
      cases hft : suffixType f with
      | none =>
        have hlhs : organizeGo fn t (f :: fs) st (some (k + 1)) =
            (Except.error (), (organizeGo fn t (fs.take k) st none).2) := by
          rw [organizeGo]
          simp [h0, hft, ih st k hk2]
        have hrhs : (organizeGo fn t ((f :: fs).take (k + 1)) st none).2 =
            (organizeGo fn t (fs.take k) st none).2 := by
          rw [List.take_succ_cons, organizeGo]
          simp [hft]
        rw [hlhs, hrhs]
      | some ft =>
        have hlhs : organizeGo fn t (f :: fs) st (some (k + 1)) =
            (Except.error (),
              (organizeGo fn t (fs.take k)
                (moveStep st ft (finalCleanName fn t) (lowerStr f.suffix)).2 none).2) := by
          rw [organizeGo]
          simp [h0, hft, ih _ k hk2]
        have hrhs : (organizeGo fn t ((f :: fs).take (k + 1)) st none).2 =
            (organizeGo fn t (fs.take k)
              (moveStep st ft (finalCleanName fn t) (lowerStr f.suffix)).2 none).2 := by
          rw [List.take_succ_cons]
          rcases hres : organizeGo fn t (fs.take k)
              (moveStep st ft (finalCleanName fn t) (lowerStr f.suffix)).2 none with ⟨r, st2⟩
          rw [organizeGo]
          cases r <;> simp [hft, hres]
        rw [hlhs, hrhs]

theorem recentFilter_suffixType {files : List TempFile} {f : TempFile}
    (h : f ∈ recentFilter files) : (suffixType f).isSome = true := by
  have hp := List.of_mem_filter h
  simp only [Bool.and_eq_true, Bool.or_eq_true, beq_iff_eq] at hp
  rcases hp with ⟨-, hor⟩
  rcases hor with h1 | h1 <;> simp [suffixType, h1]

theorem filter_take_filter {α : Type} (p : α → Bool) (l : List α) (k : Nat) :
    List.filter p ((List.filter p l).take k) = (List.filter p l).take k := by
  apply List.filter_eq_self.mpr
  intro a ha
  exact List.of_mem_filter (List.mem_of_mem_take ha)

theorem recentFilter_take (files : List TempFile) (k : Nat) :
    recentFilter ((recentFilter files).take k) = (recentFilter files).take k :=
  filter_take_filter _ files k

/-! ### Sanitization and label normalization -/

theorem pyStrip_subset {l : List Char} {c : Char} (h : c ∈ pyStrip l) : c ∈ l := by
  rw [pyStrip, List.mem_reverse] at h
  have h2 : c ∈ (l.dropWhile pyIsSpace).reverse :=
    List.IsSuffix.subset (List.dropWhile_suffix pyIsSpace) h
  rw [List.mem_reverse] at h2
  exact List.IsSuffix.subset (List.dropWhile_suffix pyIsSpace) h2

theorem subFNAux_nil (fuel : Nat) : subFNAux fuel [] = [] := by
  cases fuel <;> rfl

theorem subFNAux_congr :
    ∀ fuel1 fuel2 l, l.length ≤ fuel1 → l.length ≤ fuel2 →
      subFNAux fuel1 l = subFNAux fuel2 l := by
  intro fuel1
  induction fuel1 with
  | zero =>
    intro fuel2 l h1 h2
    have : l = [] := by
      cases l
      · rfl
      · simp at h1
    subst this
    rw [subFNAux_nil, subFNAux_nil]
  | succ fuel1 ih =>
    intro fuel2 l h1 h2
    cases l with
    | nil => rw [subFNAux_nil, subFNAux_nil]
    | cons c rest =>
      cases fuel2 with
      | zero => simp at h2
      | succ fuel2 =>
        rw [subFNAux, subFNAux]
        have hlen : rest.length + 1 ≤ fuel1 + 1 := by simpa using h1
        have hlen2 : rest.length + 1 ≤ fuel2 + 1 := by simpa using h2
        have hpat : patList.length = 14 := by decide
        by_cases hp : patList.isPrefixOf (c :: rest) = true
        · simp only [if_pos hp]
          congr 1
          apply ih
          · rw [List.length_drop]
            simp only [List.length_cons]
            omega
          · rw [List.length_drop]
            simp only [List.length_cons]
            omega
        · simp only [if_neg hp]
          congr 1
          exact ih fuel2 rest (by omega) (by omega)

theorem subFN_eq (l : List Char) :
    subFN l =
      match l with
      | [] => []
      | c :: rest =>
        if patList.isPrefixOf (c :: rest) then
          repList ++ subFN ((c :: rest).drop patList.length)
        else c :: subFN rest := by
  cases l with
  | nil => rfl
  | cons c rest =>
    show subFNAux (rest.length + 1) (c :: rest) = _
    rw [subFNAux]
    have hpat : patList.length = 14 := by decide
    by_cases hp : patList.isPrefixOf (c :: rest) = true
    · simp only [if_pos hp]
      congr 1
      apply subFNAux_congr
      · rw [List.length_drop]
        simp only [List.length_cons]
        omega
      · exact Nat.le_refl _
    · simp only [if_neg hp]
      rfl

theorem subFNAux_mem :
    ∀ fuel l c, c ∈ subFNAux fuel l → c ∈ l ∨ c ∈ repList := by
  intro fuel
  induction fuel with
  | zero =>
    intro l c h
    exact Or.inl (by simpa [subFNAux] using h)
  | succ fuel ih =>
    intro l c h
    cases l with
    | nil => simp [subFNAux] at h
    | cons a rest =>
      rw [subFNAux] at h
      by_cases hp : patList.isPrefixOf (a :: rest) = true
      · rw [if_pos hp] at h
        rcases List.mem_append.mp h with h1 | h1
        · exact Or.inr h1
        · rcases ih _ _ h1 with h2 | h2
          · exact Or.inl (List.mem_of_mem_drop h2)
          · exact Or.inr h2
      · rw [if_neg hp] at h
        rcases List.mem_cons.mp h with h1 | h1
        · exact Or.inl (h1 ▸ List.mem_cons_self a rest)
        · rcases ih _ _ h1 with h2 | h2
          · exact Or.inl (List.mem_cons_of_mem a h2)
          · exact Or.inr h2

theorem subFN_mem {l : List Char} {c : Char} (h : c ∈ subFN l) : c ∈ l ∨ c ∈ repList :=
  subFNAux_mem l.length l c h

/-! ### Substring containment -/

theorem containsSub_iff (needle : List Char) :
    ∀ l, containsSub needle l = true ↔ needle <:+: l := by
  intro l
  induction l with
  | nil =>
    rw [containsSub]
    constructor
    · intro h
      have hn : needle = [] := List.isEmpty_iff.mp h
      exact ⟨[], [], by simp [hn]⟩
    · rintro ⟨s, t, hst⟩
      have hs := List.append_eq_nil.mp hst
      have hn := (List.append_eq_nil.mp hs.1).2
      simp [hn, List.isEmpty_iff]
  | cons c rest ih =>
    rw [containsSub]
    simp only [Bool.or_eq_true]
    constructor
    · rintro (h | h)
      · exact List.IsPrefix.isInfix (List.isPrefixOf_iff_prefix.mp h)
      · obtain ⟨s, t, hst⟩ := ih.mp h
        exact ⟨c :: s, t, by simp [← hst]⟩
    · intro h
      rw [ List.infix_cons_iff] at h
      rcases h with h | h
      · exact Or.inl (List.isPrefixOf_iff_prefix.mpr h)
      · exact Or.inr (ih.mpr h)

/-! ### Identifier splitting and row-index extraction -/

theorem splitColon_append :
    ∀ a rest, ':' ∉ a → splitColon (a ++ ':' :: rest) = a :: splitColon rest := by
  intro a
  induction a with
  | nil =>
    intro rest h
    simp [splitColon]
  | cons c a ih =>
    intro rest h
    have hc : ¬ c = ':' := fun he => h (by rw [← he] at *; exact List.mem_cons_self c a)
    rw [List.cons_append, splitColon, if_neg hc,
      ih rest (fun hm => h (List.mem_cons_of_mem c hm))]

theorem natToDigits_no_colon (n : Nat) : ':' ∉ natToDigits n := by
  intro hc
  obtain ⟨d, hd, he⟩ := natToDigits_mem hc
  exact digitChar_ne_colon hd he.symm

theorem splitColon_mkId (n : Nat) :
    splitColon (mkXmlLinkId n) =
      ["frmPrincipal".toList, "tablaCompRecibidos".toList, natToDigits n, "lnkXml".toList] := by
  have h1 : mkXmlLinkId n =
      "frmPrincipal".toList ++ ':' ::
        ("tablaCompRecibidos".toList ++ ':' :: (natToDigits n ++ ':' :: "lnkXml".toList)) := by
    have hlit : ("frmPrincipal:tablaCompRecibidos:".toList : List Char) =
        "frmPrincipal".toList ++ ':' :: ("tablaCompRecibidos".toList ++ [':']) := by decide
    have hlit2 : (":lnkXml".toList : List Char) = ':' :: "lnkXml".toList := by decide
    rw [mkXmlLinkId, hlit, hlit2]
    simp [List.append_assoc]
  have hl : splitColon "lnkXml".toList = ["lnkXml".toList] := by decide
  rw [h1, splitColon_append _ _ (by decide), splitColon_append _ _ (by decide),
    splitColon_append _ _ (natToDigits_no_colon n), hl]

theorem extractIndex_mkId (n : Nat) : extractIndex (some (mkXmlLinkId n)) = some n := by
  have hne : (natToDigits n).isEmpty = false := by
    rcases h : natToDigits n with _ | ⟨c, l⟩
    · exact absurd h (natToDigits_ne_nil n)
    · rfl
  have hall : (natToDigits n).all Char.isDigit = true := by
    rw [List.all_eq_true]
    intro c hc
    obtain ⟨d, hd, he⟩ := natToDigits_mem hc
    rw [he]
    exact digitChar_isDigit hd
  simp only [extractIndex, splitColon_mkId]
  simp [pyIsDigitStr, hne, hall, parseDecimal_natToDigits, List.getD]

/-! ### Whitespace tokens of a class attribute -/

theorem wsSplitAux_mem_sub :
    ∀ fuel l tkn, tkn ∈ wsSplitAux fuel l → tkn <:+: l := by
  intro fuel
  induction fuel with
  | zero =>
    intro l tkn h
    simp [wsSplitAux] at h
  | succ fuel ih =>
    intro l tkn h
    cases l with
    | nil => simp [wsSplitAux] at h
    | cons c rest =>
      rw [wsSplitAux] at h
      by_cases hs : pyIsSpace c = true
      · rw [if_pos hs] at h
        obtain ⟨s, t, hst⟩ := ih _ _ h
        exact ⟨c :: s, t, by simp [← hst]⟩
      · rw [if_neg hs] at h
        rcases List.mem_cons.mp h with h1 | h1
        · subst h1
          exact List.IsPrefix.isInfix ( List.takeWhile_prefix _)
        · exact (ih _ _ h1).trans (List.IsSuffix.isInfix (List.dropWhile_suffix _))

theorem wsSplit_token_sub {cls tkn : List Char} (h : tkn ∈ wsSplit cls) : tkn <:+: cls :=
  wsSplitAux_mem_sub cls.length cls tkn h

theorem subFN_cons_pos {c : Char} {rest : List Char}
    (hp : patList.isPrefixOf (c :: rest) = true) :
    subFN (c :: rest) = repList ++ subFN ((c :: rest).drop patList.length) := by
  have h := subFN_eq (c :: rest)
  simpa [hp] using h

theorem subFN_cons_neg {c : Char} {rest : List Char}
    (hp : ¬ patList.isPrefixOf (c :: rest) = true) :
    subFN (c :: rest) = c :: subFN rest := by
  have h := subFN_eq (c :: rest)
  simpa [hp] using h

/-! ### Claim theorems -/

/-- C2: for every input string and timestamp, the sanitized destination
name contains only characters that pass the allowed-character filter
(alphanumeric, hyphen, underscore, space), and it is never empty: whenever
sanitization yields the empty string the timestamp-based placeholder
`documento_<t>` is used instead. -/
theorem claim_c2 (s : List Char) (t : Nat) :
    finalCleanName s t ≠ [] ∧ ∀ c ∈ finalCleanName s t, allowedChar c = true := by
  have hrep : ∀ c ∈ repList, allowedChar c = true := by decide
  have hdoc : ∀ c ∈ ("documento_".toList : List Char), allowedChar c = true := by decide
  have hdocne : ("documento_".toList : List Char) ≠ [] := by decide
  simp only [finalCleanName]
  by_cases hc : subFN (pyStrip (s.filter allowedChar)) = []
  · rw [if_pos hc]
    constructor
    · intro h
      exact hdocne (List.append_eq_nil.mp h).1
    · intro c hcm
      rcases List.mem_append.mp hcm with h1 | h1
      · exact hdoc c h1
      · obtain ⟨d, hd, he⟩ := natToDigits_mem h1
        rw [he]
        exact digitChar_allowed hd
  · rw [if_neg hc]
    refine ⟨hc, fun c hcm => ?_⟩
    rcases subFN_mem hcm with h1 | h1
    · exact List.of_mem_filter (pyStrip_subset h1)
    · exact hrep c h1

theorem claim_c2_witness :
    finalCleanName ['!'] 5 ≠ [] ∧ allowedChar 'd' = true :=
  ⟨(claim_c2 ['!'] 5).1, (claim_c2 ['!'] 5).2 'd' (by decide)⟩

/-- C8: the label-spacing normalization returns every string without an
occurrence of `FacturasNumber` unchanged, and on a string with an
occurrence it splits off a context around the pattern and replaces the
pattern by `Facturas Number` there. -/
theorem claim_c8 (s : List Char) :
    (¬ patList <:+: s → subFN s = s) ∧
    (patList <:+: s →
      ∃ a b, s = a ++ patList ++ b ∧ subFN s = a ++ repList ++ subFN b) := by
  induction s with
  | nil =>
    constructor
    · intro h
      rfl
    · rintro ⟨a, b, hab⟩
      have h1 := (List.append_eq_nil.mp (List.append_eq_nil.mp hab).1).2
      exact absurd h1 (by decide)
  | cons c rest ih =>
    constructor
    · intro h
      have hp : ¬ patList.isPrefixOf (c :: rest) = true := fun hp =>
        h (List.IsPrefix.isInfix (List.isPrefixOf_iff_prefix.mp hp))
      rw [subFN_cons_neg hp]
      congr 1
      apply ih.1
      intro hi
      apply h
      obtain ⟨x, y, hxy⟩ := hi
      exact ⟨c :: x, y, by simp [← hxy]⟩
    · intro h
      by_cases hp : patList.isPrefixOf (c :: rest) = true
      · obtain ⟨tail, htail⟩ := List.isPrefixOf_iff_prefix.mp hp
        refine ⟨[], (c :: rest).drop patList.length, ?_, ?_⟩
        · simp only [List.nil_append]
          rw [← htail, List.drop_left]
        · rw [subFN_cons_pos hp]
          simp
      · have hrest : patList <:+: rest := by
          rw [ List.infix_cons_iff] at h
          rcases h with h1 | h1
          · exact absurd (List.isPrefixOf_iff_prefix.mpr h1) hp
          · exact h1
        obtain ⟨a, b, hab, hsub⟩ := ih.2 hrest
        refine ⟨c :: a, b, by simp [hab], ?_⟩
        rw [subFN_cons_neg hp, hsub]
        simp

theorem claim_c8_witness :
    subFN "abc".toList = "abc".toList ∧
      subFN "aFacturasNumberb".toList = "aFacturas Numberb".toList := by
  constructor
  · exact (claim_c8 "abc".toList).1
      (fun hi => absurd ((containsSub_iff _ _).mpr hi) (by decide))
  · decide

/-- C9: the download wait returns `true` as soon as a poll shows no
`.crdownload` marker file, regardless of the remaining polls and of
whether any downloaded file exists; in particular it returns `true` on a
completely empty download directory. -/
theorem claim_c9 :
    (∀ snap rest, snap.filter isCrdownload = [] →
      waitForDownloadComplete (snap :: rest) = true) ∧
    waitForDownloadComplete [[]] = true := by
  constructor
  · intro snap rest h
    rw [waitForDownloadComplete, h]
    rfl
  · rfl

theorem claim_c9_witness : waitForDownloadComplete [["a.pdf".toList]] = true :=
  claim_c9.1 ["a.pdf".toList] [] (by decide)

/-- C4: the pagination operation never clicks a control whose class
attribute carries the `ui-state-disabled` class token (any clicked control
does not carry the token), and it reports no more pages both when no
control exists and when every control carries the token. -/
theorem claim_c4 :
    (∀ bs i, goToNextPage bs = some i →
      ∃ attr, bs[i]? = some attr ∧ disabledToken ∉ wsSplit (attr.getD [])) ∧
    goToNextPage [] = none ∧
    (∀ bs, (∀ attr ∈ bs, disabledToken ∈ wsSplit (attr.getD [])) →
      goToNextPage bs = none) := by
  refine ⟨?_, rfl, ?_⟩
  · intro bs
    induction bs with
    | nil =>
      intro i h
      simp [goToNextPage] at h
    | cons b rest ih =>
      intro i h
      rw [goToNextPage] at h
      by_cases hc : containsSub disabledToken (b.getD []) = true
      · rw [if_pos hc, Option.map_eq_some'] at h
        obtain ⟨j, hj, rfl⟩ := h
        obtain ⟨attr, h1, h2⟩ := ih j hj
        exact ⟨attr, by simpa using h1, h2⟩
      · rw [if_neg hc] at h
        obtain rfl : 0 = i := Option.some.inj h
        refine ⟨b, by simp, fun hmem => hc ?_⟩
        exact (containsSub_iff _ _).mpr (wsSplit_token_sub hmem)
  · intro bs
    induction bs with
    | nil =>
      intro h
      rfl
    | cons b rest ih =>
      intro h
      rw [goToNextPage]
      have hb : disabledToken ∈ wsSplit (b.getD []) := h b (List.mem_cons_self b rest)
      have hc : containsSub disabledToken (b.getD []) = true :=
        (containsSub_iff _ _).mpr (wsSplit_token_sub hb)
      rw [if_pos hc, ih (fun attr ha => h attr (List.mem_cons_of_mem b ha))]
      rfl

theorem claim_c4_witness :
    goToNextPage [some "a ui-state-disabled".toList] = none :=
  claim_c4.2.2 [some "a ui-state-disabled".toList] (by decide)

/-- C5: for every well-formed identifier of the fixed colon-delimited
shape the extracted index is the rendered row number, in DOM order;
anchors with a malformed or missing identifier are skipped (their
extraction yields `none` and they drop out of the index sequence without
disturbing the order of the rest). -/
theorem claim_c5 :
    (∀ ns : List Nat, documentIndices (ns.map fun n => some (mkXmlLinkId n)) = ns) ∧
    (∀ xs ys b, extractIndex b = none →
      documentIndices (xs ++ b :: ys) = documentIndices (xs ++ ys)) ∧
    extractIndex none = none ∧
    extractIndex (some "frmPrincipal:tablaCompRecibidos:abc:lnkXml".toList) = none ∧
    extractIndex (some "noColonsHere".toList) = none := by
  refine ⟨?_, ?_, rfl, by decide, by decide⟩
  · intro ns
    induction ns with
    | nil => rfl
    | cons n ns ih =>
      simp only [List.map_cons, documentIndices, List.filterMap_cons, extractIndex_mkId]
      exact congrArg (List.cons n) ih
  · intro xs ys b hb
    simp only [documentIndices, List.filterMap_append, List.filterMap_cons, hb]

theorem claim_c5_witness :
    documentIndices [some (mkXmlLinkId 5), some (mkXmlLinkId 7), some (mkXmlLinkId 9)] =
      [5, 7, 9] ∧
    documentIndices [some (mkXmlLinkId 3), none, some (mkXmlLinkId 12)] =
      documentIndices [some (mkXmlLinkId 3), some (mkXmlLinkId 12)] := by
  constructor
  · exact claim_c5.1 [5, 7, 9]
  · exact claim_c5.2.1 [some (mkXmlLinkId 3)] [some (mkXmlLinkId 12)] none rfl

/-- C1: the file organizer never overwrites an existing file: every
pre-existing directory listing survives as a prefix of the final listing,
the final listings stay duplicate-free, and the chosen destination name is
the first candidate in the counter sequence that collides with no existing
file (all earlier candidates collide). -/
theorem claim_c1 (st : FS) (files : List TempFile) (fn : List Char) (t : Nat)
    (failAt : Option Nat) (hp : st.pdfDir.Nodup) (hx : st.xmlDir.Nodup) :
    (st.pdfDir <+: (organize st files fn t failAt).2.pdfDir ∧
      st.xmlDir <+: (organize st files fn t failAt).2.xmlDir ∧
      (organize st files fn t failAt).2.pdfDir.Nodup ∧
      (organize st files fn t failAt).2.xmlDir.Nodup) ∧
    ∀ S stem ext, ∃ m, destName S stem ext = candName stem ext m ∧
      candName stem ext m ∉ S ∧ ∀ j < m, candName stem ext j ∈ S := by
  obtain ⟨h1, h2, h3, h4⟩ := organize_dirs st files fn t failAt
  exact ⟨⟨h1, h2, h3 hp, h4 hx⟩, destName_spec⟩

theorem claim_c1_witness :
    (organize ⟨["F001.pdf".toList], []⟩ [⟨true, 0, ".pdf".toList⟩]
      "F001".toList 0 none).2.pdfDir.Nodup :=
  (claim_c1 ⟨["F001.pdf".toList], []⟩ [⟨true, 0, ".pdf".toList⟩]
    "F001".toList 0 none (by decide) (by decide)).1.2.2.1

/-- C10: the organizer is not atomic on error: when an exception strikes
at the `k`-th matched file, the call returns the empty list, yet the
filesystem state is exactly the one reached by successfully organizing the
first `k` matched files (those `k` earlier moves persist, and each moved
file is still present in its category directory). -/
theorem claim_c10 (st : FS) (files : List TempFile) (fn : List Char) (t : Nat) (k : Nat)
    (hk : k < (recentFilter files).length) :
    (organize st files fn t (some k)).1 = [] ∧
    (organize st files fn t (some k)).2 =
      (organize st ((recentFilter files).take k) fn t none).2 ∧
    (organize st ((recentFilter files).take k) fn t none).1.length = k ∧
    ∀ p ∈ (organize st ((recentFilter files).take k) fn t none).1,
      p.2 ∈ dirOf (organize st files fn t (some k)).2 p.1 := by
  have htake := recentFilter_take files k
  have hfail := organizeGo_failAt fn t (recentFilter files) st k hk
  obtain ⟨l, hl1, hl2⟩ := organizeGo_none_ok fn t ((recentFilter files).take k) st
  rcases hres : organizeGo fn t ((recentFilter files).take k) st none with ⟨r, st2⟩
  rw [hres] at hl1
  simp at hl1
  subst hl1
  have h1 : organize st files fn t (some k) =
      ([], (organizeGo fn t ((recentFilter files).take k) st none).2) := by
    rw [organize, hfail]
  have h2 : organize st ((recentFilter files).take k) fn t none = (l, st2) := by
    rw [organize, htake, hres]
  refine ⟨by rw [h1], by rw [h1, h2, hres], ?_, ?_⟩
  · have hall : ((recentFilter files).take k).filter (fun f => (suffixType f).isSome) =
        (recentFilter files).take k := by
      rw [List.filter_eq_self]
      intro a ha
      exact recentFilter_suffixType (List.mem_of_mem_take ha)
    rw [h2, hl2, hall, List.length_take]
    omega
  · intro p hp
    rw [h2] at hp
    rw [h1, hres]
    exact organizeGo_mem fn t ((recentFilter files).take k) st none l st2 hres p hp

theorem claim_c10_witness :
    (organize ⟨[], []⟩ [⟨true, 0, ".pdf".toList⟩, ⟨true, 0, ".xml".toList⟩]
        "A".toList 0 (some 1)).1 = [] ∧
    (organize ⟨[], []⟩
        ((recentFilter [⟨true, 0, ".pdf".toList⟩, ⟨true, 0, ".xml".toList⟩]).take 1)
        "A".toList 0 none).1.length = 1 :=
  ⟨(claim_c10 ⟨[], []⟩ [⟨true, 0, ".pdf".toList⟩, ⟨true, 0, ".xml".toList⟩]
      "A".toList 0 1 (by decide)).1,
    (claim_c10 ⟨[], []⟩ [⟨true, 0, ".pdf".toList⟩, ⟨true, 0, ".xml".toList⟩]
      "A".toList 0 1 (by decide)).2.2.1⟩

/-- C3 counterexample: the claim as stated requires, for a successful row,
some file type that was both triggered and moved; but with only the XML
link triggered and a stale `.pdf` file in the download directory the row
reports success while the only triggered type (XML) was never moved and
the only moved type (PDF) was never triggered. -/
theorem claim_c3_counterexample :
    (downloadDocumentByIndex ⟨[], []⟩ cexRowEnv 5).1 = true ∧
    ¬ ∃ ft ∈ rowSuccesses cexRowEnv,
        ft ∈ (organize ⟨[], []⟩ cexRowEnv.tempFiles
            (facturaName cexRowEnv 5) cexRowEnv.time none).1.map Prod.fst := by
  decide

/-- C3 (amended): the per-row download reports success exactly when at
least one file type was triggered with a confirmed download-marker wait
and the subsequent organizer call moved at least one recently modified
file of either type (not necessarily of a triggered type); in every other
case it reports no files produced for the row. -/
theorem claim_c3 (st : FS) (env : RowEnv) (i : Nat) :
    (downloadDocumentByIndex st env i).1 = true ↔
      (rowSuccesses env ≠ [] ∧
        (organize st env.tempFiles (facturaName env i) env.time env.orgFail).1 ≠ []) := by
  rw [downloadDocumentByIndex]
  by_cases hs : (rowSuccesses env).isEmpty = true
  · rw [if_pos hs]
    simp [List.isEmpty_iff.mp hs]
  · rw [if_neg hs]
    have hne : rowSuccesses env ≠ [] := fun he => hs (by simp [he])
    simp [hne, List.length_pos]

theorem claim_c3_witness :
    (downloadDocumentByIndex ⟨[], []⟩ cexRowEnv 5).1 = true ↔
      (rowSuccesses cexRowEnv ≠ [] ∧
        (organize ⟨[], []⟩ cexRowEnv.tempFiles (facturaName cexRowEnv 5)
          cexRowEnv.time cexRowEnv.orgFail).1 ≠ []) :=
  claim_c3 ⟨[], []⟩ cexRowEnv 5

theorem countMultiPrompts_append (a b : List PromptEvent) :
    countMultiPrompts (a ++ b) = countMultiPrompts a + countMultiPrompts b := by
  simp [countMultiPrompts, List.filter_append]

theorem countLoginPrompts_append (a b : List PromptEvent) :
    countLoginPrompts (a ++ b) = countLoginPrompts a + countLoginPrompts b := by
  simp [countLoginPrompts, List.filter_append]

theorem rowPromptEvents_counts (r : Nat) :
    countMultiPrompts (rowPromptEvents r) = (if rowPrompt r then 1 else 0) ∧
    countLoginPrompts (rowPromptEvents r) = 0 := by
  by_cases hr : rowPrompt r = true
  · rw [rowPromptEvents, if_pos hr]
    exact ⟨by rw [if_pos hr]; rfl, rfl⟩
  · rw [rowPromptEvents, if_neg hr]
    exact ⟨by rw [if_neg hr]; rfl, rfl⟩

theorem pagePromptEvents_counts (rows : List Nat) :
    countMultiPrompts (pagePromptEvents rows) = (rows.filter fun i => rowPrompt i).length ∧
    countLoginPrompts (pagePromptEvents rows) = 0 := by
  induction rows with
  | nil => exact ⟨rfl, rfl⟩
  | cons r rows ih =>
    have hsplit : pagePromptEvents (r :: rows) = rowPromptEvents r ++ pagePromptEvents rows := by
      simp [pagePromptEvents]
    obtain ⟨hm, hl⟩ := rowPromptEvents_counts r
    constructor
    · rw [hsplit, countMultiPrompts_append, hm, ih.1, List.filter_cons]
      by_cases hr : rowPrompt r = true
      · rw [if_pos hr, if_pos hr, List.length_cons]
        omega
      · rw [if_neg hr, if_neg hr]
        omega
    · rw [hsplit, countLoginPrompts_append, hl, ih.2]

theorem countMultiPrompts_login_cons (xs : List PromptEvent) :
    countMultiPrompts (PromptEvent.login :: xs) = countMultiPrompts xs := by
  have h : (PromptEvent.login == PromptEvent.multiFile) = false := rfl
  simp [countMultiPrompts, List.filter_cons, h]

theorem countLoginPrompts_login_cons (xs : List PromptEvent) :
    countLoginPrompts (PromptEvent.login :: xs) = countLoginPrompts xs + 1 := by
  have h : (PromptEvent.login == PromptEvent.login) = true := rfl
  simp [countLoginPrompts, List.filter_cons, h]

/-- C6 counterexample: the multi-file-download prompt is keyed to DOM row
index 0, not to the first row processed: retrying the first page shows it
twice in one run, and a run whose pages carry only nonzero row indices
never shows it — in neither run does it occur exactly once. -/
theorem claim_c6_counterexample :
    countMultiPrompts (runPromptEvents [[0, 1], [0, 1]]) = 2 ∧
    countMultiPrompts (runPromptEvents [[5, 7, 9]]) = 0 := by
  decide

/-- C6 (amended): across a run the login prompt occurs exactly once, and
the multi-file-download prompt occurs once for every processed row whose
extracted DOM index is 0 — zero times when no such row is processed, and
several times when a page containing row index 0 is processed repeatedly. -/
theorem claim_c6 (pages : List (List Nat)) :
    countMultiPrompts (runPromptEvents pages) =
      (pages.flatten.filter fun i => rowPrompt i).length ∧
    countLoginPrompts (runPromptEvents pages) = 1 := by
  have hflat : ∀ ps : List (List Nat),
      countMultiPrompts ((ps.map pagePromptEvents).flatten) =
        (ps.flatten.filter fun i => rowPrompt i).length ∧
      countLoginPrompts ((ps.map pagePromptEvents).flatten) = 0 := by
    intro ps
    induction ps with
    | nil => exact ⟨rfl, rfl⟩
    | cons p ps ih =>
      obtain ⟨hm, hl⟩ := pagePromptEvents_counts p
      constructor
      · simp only [List.map_cons, List.flatten_cons, countMultiPrompts_append, hm, ih.1,
          List.filter_append, List.length_append]
      · simp only [List.map_cons, List.flatten_cons, countLoginPrompts_append, hl, ih.2]
  constructor
  · simp only [runPromptEvents]
    rw [countMultiPrompts_login_cons]
    exact (hflat pages).1
  · simp only [runPromptEvents]
    rw [countLoginPrompts_login_cons, (hflat pages).2]

theorem claim_c6_witness :
    countMultiPrompts (runPromptEvents [[0, 1]]) =
      (([[0, 1]] : List (List Nat)).flatten.filter fun i => rowPrompt i).length ∧
    countLoginPrompts (runPromptEvents [[0, 1]]) = 1 :=
  claim_c6 [[0, 1]]

/-- C7 counterexample: when the page loop is interrupted the summary block
is skipped (it sits inside the `try`, before the handlers), so the run
does not always print the summary. -/
theorem claim_c7_counterexample :
    (runModel RunOutcome.interrupted).summaryPrinted = false := rfl

/-- C7 (amended): whatever the outcome of the body, `run` never ends with
a distinguished failure status and always performs the final cleanup; the
summary, however, is printed exactly when the page loop terminates
normally. -/
theorem claim_c7 (o : RunOutcome) :
    (runModel o).exitFailure = false ∧ (runModel o).cleanupRan = true ∧
      ((runModel o).summaryPrinted = true ↔ o = RunOutcome.completed) := by
  cases o <;> refine ⟨rfl, rfl, ?_⟩ <;> simp [runModel]

theorem claim_c7_witness :
    (runModel RunOutcome.completed).exitFailure = false ∧
      (runModel RunOutcome.completed).cleanupRan = true ∧
      ((runModel RunOutcome.completed).summaryPrinted = true ↔
        RunOutcome.completed = RunOutcome.completed) :=
  claim_c7 RunOutcome.completed

end SRIScrapper
